import Mathlib

/-!
Verification of the load-generation engine in `lib/burn.go` (package `trunks`).

Times are integer nanoseconds on the Go monotonic clock (`time.Time` /
`time.Duration` values), embedded as `ℤ`.  Unsigned 64-bit counters are
embedded as `ℕ` with explicit wraparound (`% 2 ^ 64`) where the Go program
performs `uint64` arithmetic.  Channels and goroutine interleavings are
embedded as explicit traces (lists of oracle steps) or as a small-step
transition relation, as each property requires.
-/

namespace Trunks

/-- Modelled from the spec: the `Result` record is declared in a package file
outside `lib/burn.go`; its fields are the ones `burn.go` uses, which the spec
describes as `{timestamp (the tick it answers), latency (duration from tick to
completion), error (present/absent, message on failure)}`.  The zero values of
the Go struct are `Latency = 0` and `Error = ""`. -/
structure Result where
  Timestamp : ℤ
  Latency : ℤ
  Error : String
deriving DecidableEq

/-- Embedding of `Burner.hit` (burn.go lines 125-144).  `tm` is the Tick's
timestamp, `invokeErr` the outcome of the external `b.Conn.Invoke` call
(`some msg` on failure), and `completion` the monotonic instant at which the
deferred block runs, so `time.Since(tm) = completion - tm`.  The source's
outer `err` variable is never assigned (the `Invoke` error on line 139 is a
shadowed variable), so the deferred `if err != nil` branch never fires; the
error message is recorded directly on line 140. -/
def hit (tm : ℤ) (invokeErr : Option String) (completion : ℤ) : Result :=
  let res : Result := { Timestamp := tm, Latency := 0, Error := "" }
  let res : Result :=
    match invokeErr with
    | some e => { res with Error := e }
    | none => res
  { res with Latency := completion - tm }

/-- One tick as consumed by a worker, together with the externally determined
behaviour of the remote call made for it. -/
structure TickJob where
  tm : ℤ
  invokeErr : Option String
  completion : ℤ
deriving DecidableEq

/-- Embedding of `Burner.burn` (burn.go lines 118-123): the worker loops
`for tm := range ticks { results <- b.hit(tgt, tm) }`, so the Results it sends
are exactly the image of the ticks it receives under `hit`.  The function is
total: no branch aborts the loop or returns an error. -/
def burnWorker (jobs : List TickJob) : List Result :=
  jobs.map fun j => hit j.tm j.invokeErr j.completion

theorem hit_Timestamp (tm : ℤ) (e : Option String) (c : ℤ) :
    (hit tm e c).Timestamp = tm := by
  cases e <;> rfl

theorem hit_Latency (tm : ℤ) (e : Option String) (c : ℤ) :
    (hit tm e c).Latency = c - tm := by
  cases e <;> rfl

/-- Claim C7: for every Tick consumed by a worker, exactly one Result is
produced and sent to the result stream — including when the invocation fails —
and that Result's `Timestamp` field equals the consumed Tick's timestamp. -/
theorem c7_one_result_per_tick (jobs : List TickJob) :
    (burnWorker jobs).length = jobs.length ∧
    ∀ (i : ℕ) (j : TickJob) (r : Result),
      jobs[i]? = some j → (burnWorker jobs)[i]? = some r → r.Timestamp = j.tm := by
  refine ⟨by simp [burnWorker], ?_⟩
  intro i j r hj hr
  rw [burnWorker, List.getElem?_map, hj] at hr
  simp only [Option.map_some', Option.some.injEq] at hr
  rw [← hr, hit_Timestamp]

theorem c7_witness :
    (burnWorker [⟨5, none, 7⟩]).length = ([⟨5, none, 7⟩] : List TickJob).length ∧
    (hit 5 none 7).Timestamp = (5 : ℤ) :=
  ⟨(c7_one_result_per_tick [⟨5, none, 7⟩]).1,
   (c7_one_result_per_tick [⟨5, none, 7⟩]).2 0 ⟨5, none, 7⟩ (hit 5 none 7) rfl rfl⟩

/-- Claim C8: for every Result produced by `hit`, `Latency` equals the
completion time minus the Tick's own timestamp (not the actual dispatch time),
is computed the same way on success and on failure, and is non-negative
whenever completion does not precede the tick timestamp — in particular in the
success case, since the call starts no earlier than the tick is handed off. -/
theorem c8_latency (tm : ℤ) (e : Option String) (completion : ℤ)
    (h : tm ≤ completion) :
    (hit tm e completion).Latency = completion - tm ∧
    0 ≤ (hit tm e completion).Latency := by
  refine ⟨hit_Latency tm e completion, ?_⟩
  rw [hit_Latency]
  omega

theorem c8_witness :
    (hit 3 none 10).Latency = 10 - 3 ∧ 0 ≤ (hit 3 none 10).Latency :=
  c8_latency 3 none 10 (by decide)

/-- Claim C9: a failed remote invocation for a single Tick is non-fatal: its
failure description becomes the `Error` field of that Tick's Result, and the
worker keeps processing the remaining ticks exactly as it would have —
`burnWorker` is a total function into `List Result` (no exception or error
escapes the engine), and the results for the ticks after the failing one are
unchanged. -/
theorem c9_failure_nonfatal (tm completion : ℤ) (msg : String)
    (pre post : List TickJob) :
    (hit tm (some msg) completion).Error = msg ∧
    burnWorker (pre ++ (⟨tm, some msg, completion⟩ : TickJob) :: post) =
      burnWorker pre ++ hit tm (some msg) completion :: burnWorker post := by
  exact ⟨rfl, by simp [burnWorker]⟩

/-- Wraparound of Go `uint64` arithmetic. -/
def u64 (x : ℕ) : ℕ := x % 2 ^ 64

/-- Go conversion `uint64 -> int64`: `time.Duration(done*interval)` on line 90
reinterprets the (wrapped) unsigned product as a signed 64-bit nanosecond
count. -/
def toInt64 (x : ℕ) : ℤ :=
  if u64 x < 2 ^ 63 then (u64 x : ℤ) else (u64 x : ℤ) - 2 ^ 64

/-- Line 86, `interval := 1e9 / rate`: the untyped constant `1e9` converts to
`uint64`, so this is integer division of nanoseconds.  (For `rate = 0` the Go
program panics with a division by zero; theorems about runs therefore assume
`0 < rate`.) -/
def interval (rate : ℕ) : ℕ := 10 ^ 9 / rate

/-- Line 87, `uint64(du.Seconds())`: `du.Seconds()` is the float64 number of
seconds and the conversion truncates.  For every non-negative value in
`time.Duration`'s int64 range (at most `2 ^ 33` seconds) the float64 value
`float64(sec) + float64(nsec)/1e9` is `sec` plus a fraction strictly below 1
and truncation yields exactly `sec`, i.e. Nat division by `1e9`; rounding
could only disturb this beyond `2 ^ 52` seconds, far outside the type's
range. -/
def durSeconds (du : ℕ) : ℕ := du / 10 ^ 9

/-- Line 87, `hits := rate * uint64(du.Seconds())`: `uint64`
multiplication. -/
def hitsFor (rate du : ℕ) : ℕ := u64 (rate * durSeconds du)

/-- Follows the spec's words (for the refinement comparison in C1): "the
engine emits exactly `floor(R*D)` Results", with `D = du / 1e9` seconds, i.e.
`floor (rate * du / 1e9)`. -/
def specFloorRD (rate du : ℕ) : ℕ := rate * du / 10 ^ 9

/-- Modelled from the spec: the package's two-argument time maximum used on
line 93, `max(next, now)`, is declared in a package file outside
`lib/burn.go`; the spec says each tick is "timestamped as
max(intended, now)". -/
def timeMax (a b : ℤ) : ℤ := max a b

/-- Line 90, `began.Add(time.Duration(done*interval))`: the intended dispatch
instant of the `done`-th tick, computed from the fixed start instant and the
counter (never by accumulating sleeps). -/
def nextInstant (began : ℤ) (rate : ℕ) (done : ℕ) : ℤ :=
  began + toInt64 (done * interval rate)

/-- The branch the `select` on lines 92-102 commits to in one loop pass:
`send` is the tick hand-off case, `stop` the `<-b.stopch` case, `dflt` the
`default` case that spawns one more worker.  Go chooses pseudo-randomly among
the ready cases, so the branch is oracle input; the `stop` case can be ready
only once the stop signal has been raised (`branchesOk`). -/
inductive Branch where
  | send
  | stop
  | dflt
deriving DecidableEq

/-- Oracle data for one pass of the scheduler loop: `now` is the value
`time.Now()` returns at the top of the pass (line 90), `postSleep` the
monotonic clock value when `time.Sleep` returns (line 91), and `branch` the
`select` case committed to. -/
structure OStep where
  now : ℤ
  postSleep : ℤ
  branch : Branch
deriving DecidableEq

/-- Scheduler-goroutine state: the counter `done` (line 88), the current
monotonic clock, the timestamps sent to the tick channel in emission order,
and how many extra workers the `default` branch has spawned. -/
structure SchedState where
  done : ℕ
  clock : ℤ
  ticks : List ℤ
  spawned : ℕ
deriving DecidableEq

/-- How the loop of lines 89-103 returned: `hitCount` for line 95
(`done == hits`), `stopped` for line 98 (`<-b.stopch`). -/
inductive ExitReason where
  | hitCount
  | stopped
deriving DecidableEq

/-- State at line 88, `began, done := time.Now(), uint64(0)`: the clock reads
`began`, nothing has been emitted. -/
def initState (began : ℤ) : SchedState :=
  { done := 0, clock := began, ticks := [], spawned := 0 }

/-- Embedding of the scheduler loop (burn.go lines 89-103) over a trace of
oracle steps.  Each pass computes `next := began.Add(Duration(done*interval))`
and hands off the tick `max(next, now)`; on a successful hand-off `done` is
incremented first and then compared against `hits` (line 94); the `stop` case
returns immediately; the `default` case spawns one extra worker and loops.
A trace that ends before the loop returns yields exit reason `none`. -/
def schedRun (began : ℤ) (rate hits : ℕ) :
    SchedState → List OStep → SchedState × Option ExitReason
  | s, [] => (s, none)
  | s, ⟨_, postSleep, Branch.stop⟩ :: _ =>
      ({ s with clock := postSleep }, some ExitReason.stopped)
  | s, ⟨_, postSleep, Branch.dflt⟩ :: os =>
      schedRun began rate hits
        { s with clock := postSleep, spawned := s.spawned + 1 } os
  | s, ⟨now, postSleep, Branch.send⟩ :: os =>
      if s.done + 1 = hits then
        ({ s with done := s.done + 1, clock := postSleep,
                  ticks := s.ticks ++ [timeMax (nextInstant began rate s.done) now] },
         some ExitReason.hitCount)
      else
        schedRun began rate hits
          { s with done := s.done + 1, clock := postSleep,
                   ticks := s.ticks ++ [timeMax (nextInstant began rate s.done) now] } os

/-- Clock discipline of a trace: `time.Now()` is monotone (`now` is at least
the clock of the previous pass), and `time.Sleep(next.Sub(now))` returns at a
monotonic instant no earlier than `now` and, when the sleep amount is
positive, no earlier than `next` — together, `postSleep ≥ max now next`. -/
def clockValid (began : ℤ) (rate hits : ℕ) : SchedState → List OStep → Bool
  | _, [] => true
  | s, ⟨now, postSleep, Branch.stop⟩ :: _ =>
      decide (s.clock ≤ now) &&
      decide (max now (nextInstant began rate s.done) ≤ postSleep)
  | s, ⟨now, postSleep, Branch.dflt⟩ :: os =>
      (decide (s.clock ≤ now) &&
       decide (max now (nextInstant began rate s.done) ≤ postSleep)) &&
      clockValid began rate hits
        { s with clock := postSleep, spawned := s.spawned + 1 } os
  | s, ⟨now, postSleep, Branch.send⟩ :: os =>
      (decide (s.clock ≤ now) &&
       decide (max now (nextInstant began rate s.done) ≤ postSleep)) &&
      (if s.done + 1 = hits then true
       else
         clockValid began rate hits
           { s with done := s.done + 1, clock := postSleep,
                    ticks := s.ticks ++ [timeMax (nextInstant began rate s.done) now] }
           os)

/-- Go-`select` readiness constraint on a trace: the `<-b.stopch` case can be
committed to only if the stop signal has been raised (`stopRaised`).  The
converse does not hold: even with the signal raised, a ready tick hand-off may
be chosen instead (uniform pseudo-random choice among ready cases). -/
def branchesOk (stopRaised : Bool) (os : List OStep) : Bool :=
  os.all fun o =>
    match o.branch with
    | Branch.stop => stopRaised
    | _ => true

/-- On any trace that never takes the stop branch, the loop can return only
through line 95, and it has then emitted exactly `hits` ticks (one per
increment of `done`, which counts the emitted ticks exactly). -/
theorem schedRun_exit_count (began : ℤ) (rate hits : ℕ) :
    ∀ (os : List OStep) (s s' : SchedState) (r : ExitReason),
      (∀ o ∈ os, o.branch ≠ Branch.stop) →
      s.ticks.length = s.done →
      schedRun began rate hits s os = (s', some r) →
      r = ExitReason.hitCount ∧ s'.ticks.length = hits := by
  intro os
  induction os with
  | nil =>
      intro s s' r _ _ h
      simp [schedRun] at h
  | cons o os ih =>
      intro s s' r hns hlen h
      obtain ⟨onow, opost, obr⟩ := o
      cases obr with
      | stop => exact absurd rfl (hns _ (List.mem_cons_self _ os))
      | dflt =>
          rw [schedRun] at h
          exact ih { s with clock := opost, spawned := s.spawned + 1 } s' r
            (fun o' ho' => hns o' (List.mem_cons_of_mem _ ho')) hlen h
      | send =>
          rw [schedRun] at h
          by_cases hd : s.done + 1 = hits
          · rw [if_pos hd, Prod.mk.injEq] at h
            obtain ⟨h1, h2⟩ := h
            injection h2 with h2
            refine ⟨h2.symm, ?_⟩
            rw [← h1]
            simp only [List.length_append, List.length_cons, List.length_nil]
            omega
          · rw [if_neg hd] at h
            refine ih _ s' r (fun o' ho' => hns o' (List.mem_cons_of_mem _ ho')) ?_ h
            simp [hlen]

/-- Claim C1 (amended): with no cancellation, whenever the scheduler loop
returns it has terminated through the hit-count test and has emitted exactly
`hits = rate * uint64(du.Seconds())` ticks — `rate` times the duration
truncated to whole seconds — each of which yields exactly one Result
(`c7_one_result_per_tick`); this count differs from the spec's `floor(R*D)`
whenever the duration has a fractional second part. -/
theorem c1_hit_count (began : ℤ) (rate du : ℕ) (os : List OStep)
    (s' : SchedState) (r : ExitReason) (hrate : 0 < rate)
    (hns : ∀ o ∈ os, o.branch ≠ Branch.stop)
    (h : schedRun began rate (hitsFor rate du) (initState began) os =
      (s', some r)) :
    r = ExitReason.hitCount ∧ s'.ticks.length = hitsFor rate du :=
  schedRun_exit_count began rate (hitsFor rate du) os (initState began) s' r
    hns rfl h

theorem c1_witness :
    ExitReason.hitCount = ExitReason.hitCount ∧
    (⟨2, 0, [0, 500000000], 0⟩ : SchedState).ticks.length =
      hitsFor 2 1500000000 :=
  c1_hit_count 0 2 1500000000 [⟨0, 0, Branch.send⟩, ⟨0, 0, Branch.send⟩]
    ⟨2, 0, [0, 500000000], 0⟩ ExitReason.hitCount (by decide) (by decide)
    (by decide)

/-- Claim C1 is false as stated: at rate `R = 2` and duration
`D = 1.5 s = 1500000000 ns`, `floor(R*D) = 3`, but the code computes
`hits = 2 * uint64(1.5) = 2` and a cancellation-free run returns through the
hit-count test after emitting exactly 2 ticks (hence 2 Results). -/
theorem c1_counterexample :
    hitsFor 2 1500000000 ≠ specFloorRD 2 1500000000 ∧
    (schedRun 0 2 (hitsFor 2 1500000000) (initState 0)
      [⟨0, 0, Branch.send⟩, ⟨0, 0, Branch.send⟩]).1.ticks.length = 2 ∧
    (schedRun 0 2 (hitsFor 2 1500000000) (initState 0)
      [⟨0, 0, Branch.send⟩, ⟨0, 0, Branch.send⟩]).2 =
      some ExitReason.hitCount := by
  refine ⟨by decide, by decide, by decide⟩

/-- With `hits = 0` the test `done == hits` is evaluated only after `done` was
incremented, so it compares a positive number with 0 and the loop can only
return through the stop branch. -/
theorem schedRun_zero_hits_stopped (began : ℤ) (rate : ℕ) :
    ∀ (os : List OStep) (s s' : SchedState) (r : ExitReason),
      schedRun began rate 0 s os = (s', some r) → r = ExitReason.stopped := by
  intro os
  induction os with
  | nil =>
      intro s s' r h
      simp [schedRun] at h
  | cons o os ih =>
      intro s s' r h
      obtain ⟨onow, opost, obr⟩ := o
      cases obr with
      | stop =>
          rw [schedRun, Prod.mk.injEq] at h
          obtain ⟨-, h2⟩ := h
          injection h2 with h2
          exact h2.symm
      | dflt =>
          rw [schedRun] at h
          exact ih _ s' r h
      | send =>
          rw [schedRun, if_neg (Nat.succ_ne_zero s.done)] at h
          exact ih _ s' r h

/-- Claim C5: if `rate * uint64(du.Seconds()) = 0` — in particular whenever
`du < 1 s`, since then `uint64(du.Seconds()) = 0` — the hit-count termination
test is never satisfied, so the loop can only return through the cancellation
branch (and otherwise runs forever). -/
theorem c5_zero_hits (began : ℤ) (rate du : ℕ) (os : List OStep)
    (s' : SchedState) (r : ExitReason) (hrate : 0 < rate)
    (h0 : hitsFor rate du = 0)
    (h : schedRun began rate (hitsFor rate du) (initState began) os =
      (s', some r)) :
    r = ExitReason.stopped := by
  rw [h0] at h
  exact schedRun_zero_hits_stopped began rate os (initState began) s' r h

theorem c5_witness : ExitReason.stopped = ExitReason.stopped :=
  c5_zero_hits 0 7 999999999 [⟨0, 0, Branch.stop⟩] ⟨0, 0, [], 0⟩
    ExitReason.stopped (by decide) (by decide) (by decide)

/-- Claim C3 is false as stated: with the stop signal raised before the run
(so `branchesOk true` holds for the trace), the `select` may still commit to
the ready tick hand-off — Go chooses uniformly at random among ready cases —
so a run with the signal raised before the first tick can emit a tick (hence
one Result) before terminating through the stop branch. -/
theorem c3_counterexample :
    branchesOk true [⟨0, 0, Branch.send⟩, ⟨0, 0, Branch.stop⟩] = true ∧
    (schedRun 0 10 (hitsFor 10 1000000000) (initState 0)
      [⟨0, 0, Branch.send⟩, ⟨0, 0, Branch.stop⟩]).2 =
      some ExitReason.stopped ∧
    (schedRun 0 10 (hitsFor 10 1000000000) (initState 0)
      [⟨0, 0, Branch.send⟩, ⟨0, 0, Branch.stop⟩]).1.ticks.length = 1 := by
  refine ⟨by decide, by decide, by decide⟩

/-- Claim C3 (amended): if the first `select` of the run observes the stop
signal, the scheduler returns immediately with zero ticks emitted (so zero
Results are produced and the stream closes); in general the run terminates at
the first pass whose `select` commits to the stop branch, emitting no tick at
that pass. -/
theorem c3_stop_first (began : ℤ) (rate hits : ℕ) (o : OStep)
    (os : List OStep) (h : o.branch = Branch.stop) :
    (schedRun began rate hits (initState began) (o :: os)).1.ticks = [] ∧
    (schedRun began rate hits (initState began) (o :: os)).2 =
      some ExitReason.stopped := by
  obtain ⟨n, p, b⟩ := o
  cases h
  exact ⟨rfl, rfl⟩

theorem c3_witness :
    (schedRun 0 5 5 (initState 0) [⟨0, 0, Branch.stop⟩]).1.ticks = [] ∧
    (schedRun 0 5 5 (initState 0) [⟨0, 0, Branch.stop⟩]).2 =
      some ExitReason.stopped :=
  c3_stop_first 0 5 5 ⟨0, 0, Branch.stop⟩ [] rfl

theorem mem_of_getLast? {l : List ℤ} {x : ℤ} (h : x ∈ l.getLast?) : x ∈ l := by
  obtain ⟨hne, rfl⟩ := List.mem_getLast?_eq_getLast h
  exact List.getLast_mem hne

theorem chain'_snoc_le (l : List ℤ) (x : ℤ) (hc : List.Chain' (· ≤ ·) l)
    (hb : ∀ t ∈ l, t ≤ x) : List.Chain' (· ≤ ·) (l ++ [x]) := by
  rw [List.chain'_append]
  refine ⟨hc, List.chain'_singleton x, ?_⟩
  intro a ha b hb'
  simp only [List.head?_cons, Option.mem_def, Option.some.injEq] at hb'
  subst hb'
  exact hb a (mem_of_getLast? ha)

/-- Invariant of the scheduler loop under the clock discipline: the emitted
timestamps form a non-decreasing chain, and all of them are bounded by the
current clock.  Each new tick `max(next, now)` is at least `now`, which is at
least the clock that bounded every earlier tick. -/
theorem schedRun_ticks_chain (began : ℤ) (rate hits : ℕ) :
    ∀ (os : List OStep) (s : SchedState),
      clockValid began rate hits s os = true →
      List.Chain' (· ≤ ·) s.ticks →
      (∀ t ∈ s.ticks, t ≤ s.clock) →
      List.Chain' (· ≤ ·) (schedRun began rate hits s os).1.ticks := by
  intro os
  induction os with
  | nil =>
      intro s _ hc _
      simpa [schedRun] using hc
  | cons o os ih =>
      intro s hv hc hb
      obtain ⟨onow, opost, obr⟩ := o
      cases obr with
      | stop =>
          rw [schedRun]
          exact hc
      | dflt =>
          rw [clockValid] at hv
          simp only [Bool.and_eq_true, decide_eq_true_eq] at hv
          obtain ⟨⟨h1, h2⟩, hv⟩ := hv
          rw [schedRun]
          exact ih _ hv hc fun t ht =>
            le_trans (le_trans (hb t ht) h1) (le_trans (le_max_left _ _) h2)
      | send =>
          rw [clockValid] at hv
          simp only [Bool.and_eq_true, decide_eq_true_eq] at hv
          obtain ⟨⟨h1, h2⟩, hv⟩ := hv
          have hnow : ∀ t ∈ s.ticks, t ≤ onow := fun t ht => le_trans (hb t ht) h1
          have htick :
              ∀ t ∈ s.ticks, t ≤ timeMax (nextInstant began rate s.done) onow :=
            fun t ht => le_trans (hnow t ht) (le_max_right _ _)
          have hchain₁ :
              List.Chain' (· ≤ ·)
                (s.ticks ++ [timeMax (nextInstant began rate s.done) onow]) :=
            chain'_snoc_le _ _ hc htick
          rw [schedRun]
          by_cases hd : s.done + 1 = hits
          · rw [if_pos hd]
            exact hchain₁
          · rw [if_neg hd]
            rw [if_neg hd] at hv
            refine ih _ hv hchain₁ ?_
            intro t ht
            rcases List.mem_append.mp ht with ht' | ht'
            · exact le_trans (hnow t ht') (le_trans (le_max_left _ _) h2)
            · rw [List.mem_singleton] at ht'
              subst ht'
              exact le_trans (le_of_eq (max_comm _ _)) h2

/-- Claim C10: on every run obeying the clock discipline (monotone
`time.Now()`, `time.Sleep` as specified), the sequence of tick timestamps sent
to the tick channel is non-decreasing in emission order. -/
theorem c10_ticks_monotone (began : ℤ) (rate hits : ℕ) (os : List OStep)
    (h : clockValid began rate hits (initState began) os = true) :
    List.Chain' (· ≤ ·)
      ((schedRun began rate hits (initState began) os).1.ticks) :=
  schedRun_ticks_chain began rate hits os (initState began) h
    (by simp [initState]) (by simp [initState])

theorem c10_witness :
    List.Chain' (· ≤ ·)
      ((schedRun 0 1 2 (initState 0)
        [⟨0, 0, Branch.send⟩, ⟨0, 1000000000, Branch.send⟩]).1.ticks) :=
  c10_ticks_monotone 0 1 2
    [⟨0, 0, Branch.send⟩, ⟨0, 1000000000, Branch.send⟩] (by decide)

/-- Follows the spec's words (for the refinement comparison in C4): the
intended n-th dispatch instant "began + n * (1/R)", i.e. `began + n * 10^9/R`
nanoseconds as exact rationals. -/
def specInstant (began : ℚ) (rate : ℕ) (n : ℕ) : ℚ :=
  began + n * ((10 ^ 9 : ℚ) / rate)

/-- Claim C4 is false as stated: at rate `R = 3` the code's intended instants
use `interval = 1e9 / 3 = 333333333` whole nanoseconds, so already the third
instant differs from `began + 3 * (1/3) s`; and at `n = 3 * 10^7` the
deviation from `began + n/R` has reached `10^7` ns — it grows linearly with
`n` (by `n/3` ns), not boundedly. -/
theorem c4_counterexample :
    ((nextInstant 0 3 3 : ℤ) : ℚ) ≠ specInstant 0 3 3 ∧
    specInstant 0 3 30000000 - ((nextInstant 0 3 30000000 : ℤ) : ℚ) =
      10 ^ 7 := by
  constructor <;> norm_num [nextInstant, specInstant, toInt64, u64, interval]

/-- Claim C4 (amended): the n-th intended dispatch instant is computed from
the fixed start instant and the counter alone — it equals
`began + n * (10^9 / R)` nanoseconds with the interval rounded down to a whole
nanosecond, so scheduling error never compounds across iterations — but its
deviation from the spec's `began + n/R` is exactly `n * (10^9 mod R) / R`
nanoseconds: identically zero when `R` divides `10^9`, and otherwise growing
linearly with `n` (while staying below `n` nanoseconds). -/
theorem c4_drift (began : ℤ) (rate n : ℕ) (hr : 0 < rate)
    (hn : n * interval rate < 2 ^ 63) :
    ((nextInstant began rate n : ℤ) : ℚ) =
      (began : ℚ) + n * (interval rate : ℚ) ∧
    specInstant (began : ℚ) rate n - ((nextInstant began rate n : ℤ) : ℚ) =
      n * ((10 ^ 9 % rate : ℕ) : ℚ) / rate := by
  have hrq : (rate : ℚ) ≠ 0 := Nat.cast_ne_zero.mpr hr.ne'
  have hlt : n * interval rate < 2 ^ 64 := lt_trans hn (by norm_num)
  have hwrap : toInt64 (n * interval rate) = ((n * interval rate : ℕ) : ℤ) := by
    rw [toInt64, u64, Nat.mod_eq_of_lt hlt, if_pos hn]
  have h1 : ((nextInstant began rate n : ℤ) : ℚ) =
      (began : ℚ) + n * (interval rate : ℚ) := by
    rw [nextInstant, hwrap]
    push_cast
    ring
  refine ⟨h1, ?_⟩
  have hdm : ((10 : ℚ) ^ 9) / rate =
      (interval rate : ℚ) + ((10 ^ 9 % rate : ℕ) : ℚ) / rate := by
    have h : interval rate * rate + 10 ^ 9 % rate = 10 ^ 9 := by
      rw [interval, Nat.mul_comm]
      exact Nat.div_add_mod (10 ^ 9) rate
    have h' : ((10 : ℚ) ^ 9) =
        (interval rate : ℚ) * rate + ((10 ^ 9 % rate : ℕ) : ℚ) := by
      exact_mod_cast h.symm
    rw [h', add_div, mul_div_assoc, div_self hrq, mul_one]
  rw [h1, specInstant, hdm]
  ring

theorem c4_witness :
    ((nextInstant 0 3 3 : ℤ) : ℚ) = (0 : ℚ) + 3 * ((interval 3 : ℕ) : ℚ) ∧
    specInstant 0 3 3 - ((nextInstant 0 3 3 : ℤ) : ℚ) =
      3 * ((10 ^ 9 % 3 : ℕ) : ℚ) / 3 :=
  c4_drift 0 3 3 (by decide) (by decide)

/-- Externally determined outcomes of `GTargeter.GenBurner`'s collaborator
calls: whether `grpc.Dial` succeeds, whether the gRPC health check succeeds,
and `runtime.NumCPU()`. -/
structure GenEnv where
  dialOk : Bool
  healthOk : Bool
  numCPU : ℕ
deriving DecidableEq

/-- The `Burner` fields that matter to the lifecycle claims: the worker count
and the `stopch` channel.  A Go `chan struct\x7b\x7d` value is embedded as
`Option Bool`: `none` is the nil channel (zero value of the field), and
`some b` an allocated channel with `b = true` once it has been closed. -/
structure BurnerState where
  Workers : ℕ
  stopch : Option Bool
deriving DecidableEq

/-- Embedding of `GTargeter.GenBurner` (burn.go lines 42-70).  The Etcd guard,
the dial and the health check are the fallible setup steps; on success the
function returns the composite literal of lines 65-69, which sets `Conn`,
`Workers` and `Ctx` but never initializes `stopch`, leaving it the nil
channel. -/
def GenBurner (isEtcd : Bool) (env : GenEnv) : Option BurnerState :=
  if isEtcd then none
  else if env.dialOk = false then none
  else if env.healthOk = false then none
  else some { Workers := env.numCPU, stopch := none }

/-- Outcome of one `Stop()` call: either a normal return leaving the channel
in the given state, or a runtime panic. -/
inductive StopOutcome where
  | ok (stopch : Option Bool)
  | panics
deriving DecidableEq

/-- Embedding of `Burner.Stop` (burn.go lines 109-116): a `select` on
`<-b.stopch` with a `default` case that runs `close(b.stopch)`.  Go channel
semantics: receiving from a nil channel is never ready and receiving from a
closed channel is always ready, so on a nil channel the `default` case runs
and `close(nil)` panics; on a closed channel the receive case returns; on an
open channel the `default` case closes it. -/
def Stop : Option Bool → StopOutcome
  | none => StopOutcome.panics
  | some true => StopOutcome.ok (some true)
  | some false => StopOutcome.ok (some true)

/-- Claim C2 is violated by the code: `GenBurner` never initializes `stopch`,
so every `Burner` it returns carries the nil channel, and the very first
`Stop()` call takes the `default` branch and panics on `close` of a nil
channel — `Stop` is not safe to call even once, let alone idempotent.  The
spec (and the `stopch` field's evident purpose) is the intent; the missing
`stopch: make(chan struct\x7b\x7d)` in the composite literal is the slip. -/
theorem c2_stop_panics (isEtcd : Bool) (env : GenEnv) (b : BurnerState)
    (h : GenBurner isEtcd env = some b) : Stop b.stopch = StopOutcome.panics := by
  rw [GenBurner] at h
  split_ifs at h
  injection h with h
  rw [← h]
  rfl

theorem c2_witness : Stop (⟨4, none⟩ : BurnerState).stopch = StopOutcome.panics :=
  c2_stop_panics false ⟨true, true, 4⟩ ⟨4, none⟩ (by decide)

/-- The deferred calls registered by the scheduler goroutine of `Burn`
(burn.go lines 83-85), in registration order: `defer close(results)`, then
`defer workers.Wait()`, then `defer close(ticks)`. -/
inductive DeferAction where
  | closeTicks
  | waitWorkers
  | closeResults
deriving DecidableEq

def deferRegistration : List DeferAction :=
  [DeferAction.closeResults, DeferAction.waitWorkers, DeferAction.closeTicks]

/-- Go runs deferred calls in last-in-first-out order, so on return the
scheduler executes the registered list reversed. -/
def shutdownOrder : List DeferAction := deferRegistration.reverse

/-- Joint state of the shutdown-relevant parts of a run of `Burn`: `pc = 0`
while the scheduler loop runs, and `pc = i + 1` when the scheduler goroutine
is about to execute the `i`-th entry of `shutdownOrder`; `liveWorkers` counts
the worker goroutines that have not yet returned (the `sync.WaitGroup`
counter); the two Booleans record whether the tick and result channels have
been closed. -/
structure SysState where
  pc : ℕ
  ticksClosed : Bool
  resultsClosed : Bool
  liveWorkers : ℕ
deriving DecidableEq

/-- State when `Burn` has started its goroutines (lines 74-80): `w` workers
(`b.Workers` of them, plus any spawned later), both channels open. -/
def initSys (w : ℕ) : SysState :=
  { pc := 0, ticksClosed := false, resultsClosed := false, liveWorkers := w }

/-- Enabling condition of a deferred call: `workers.Wait()` returns only once
the WaitGroup counter has reached zero (the `sync` package contract); the two
`close` calls are always enabled. -/
def DeferEnabled : DeferAction → SysState → Prop
  | DeferAction.closeTicks, _ => True
  | DeferAction.waitWorkers, s => s.liveWorkers = 0
  | DeferAction.closeResults, _ => True

def applyDefer : DeferAction → SysState → SysState
  | DeferAction.closeTicks, s => { s with ticksClosed := true }
  | DeferAction.waitWorkers, s => s
  | DeferAction.closeResults, s => { s with resultsClosed := true }

/-- Small-step interleaving semantics of a run's shutdown: the scheduler may
leave its loop (line 95 or 98) or spawn one more worker (lines 100-101) while
still looping; once out of the loop it executes the deferred calls in
`shutdownOrder`, each gated by its enabling condition; a worker goroutine
returns (decrementing the WaitGroup via `defer workers.Done()`, line 119) only
after its `range ticks` loop ends, which requires the tick channel to be
closed. -/
inductive SysStep : SysState → SysState → Prop where
  | exitLoop (s : SysState) : s.pc = 0 → SysStep s { s with pc := 1 }
  | spawn (s : SysState) : s.pc = 0 →
      SysStep s { s with liveWorkers := s.liveWorkers + 1 }
  | runDefer (s : SysState) (i : ℕ) (hi : i < shutdownOrder.length)
      (hpc : s.pc = i + 1) (hen : DeferEnabled (shutdownOrder.get ⟨i, hi⟩) s) :
      SysStep s (applyDefer (shutdownOrder.get ⟨i, hi⟩) { s with pc := s.pc + 1 })
  | workerExit (s : SysState) (hT : s.ticksClosed = true)
      (hw : 0 < s.liveWorkers) :
      SysStep s { s with liveWorkers := s.liveWorkers - 1 }

def Reachable (w : ℕ) (s : SysState) : Prop :=
  Relation.ReflTransGen SysStep (initSys w) s

/-- The shutdown invariant: past the first deferred call the tick channel is
closed, past the second no worker is live, and the result channel is closed
only after all three deferred calls ran. -/
def SysInv (s : SysState) : Prop :=
  (2 ≤ s.pc → s.ticksClosed = true) ∧
  (3 ≤ s.pc → s.liveWorkers = 0) ∧
  (s.resultsClosed = true → 4 ≤ s.pc)

theorem sysInv_init (w : ℕ) : SysInv (initSys w) := by
  refine ⟨?_, ?_, ?_⟩ <;> intro h <;> simp [initSys] at h

theorem sysInv_step {s s' : SysState} (hinv : SysInv s) (hstep : SysStep s s') :
    SysInv s' := by
  obtain ⟨pc, tC, rC, lw⟩ := s
  obtain ⟨i1, i2, i3⟩ := hinv
  have j1 : 2 ≤ pc → tC = true := i1
  have j2 : 3 ≤ pc → lw = 0 := i2
  have j3 : rC = true → 4 ≤ pc := i3
  cases hstep with
  | exitLoop hpc =>
      have hpc' : pc = 0 := hpc
      show (2 ≤ 1 → tC = true) ∧ (3 ≤ 1 → lw = 0) ∧ (rC = true → 4 ≤ 1)
      exact ⟨fun h => absurd h (by omega), fun h => absurd h (by omega),
        fun h => absurd (j3 h) (by omega)⟩
  | spawn hpc =>
      have hpc' : pc = 0 := hpc
      show (2 ≤ pc → tC = true) ∧ (3 ≤ pc → lw + 1 = 0) ∧ (rC = true → 4 ≤ pc)
      exact ⟨j1, fun h => absurd h (by omega), j3⟩
  | runDefer i hi hpc hen =>
      have hpc' : pc = i + 1 := hpc
      have hi3 : i < 3 := hi
      have hcase : i = 0 ∨ i = 1 ∨ i = 2 := by omega
      rcases hcase with rfl | rfl | rfl
      · show (2 ≤ pc + 1 → true = true) ∧ (3 ≤ pc + 1 → lw = 0) ∧
          (rC = true → 4 ≤ pc + 1)
        exact ⟨fun _ => rfl, fun h => absurd h (by omega),
          fun h => absurd (j3 h) (by omega)⟩
      · have hlw : lw = 0 := hen
        show (2 ≤ pc + 1 → tC = true) ∧ (3 ≤ pc + 1 → lw = 0) ∧
          (rC = true → 4 ≤ pc + 1)
        exact ⟨fun _ => j1 (by omega), fun _ => hlw,
          fun h => absurd (j3 h) (by omega)⟩
      · show (2 ≤ pc + 1 → tC = true) ∧ (3 ≤ pc + 1 → lw = 0) ∧
          (true = true → 4 ≤ pc + 1)
        exact ⟨fun _ => j1 (by omega), fun _ => j2 (by omega), fun _ => by omega⟩
  | workerExit hT hw =>
      have hw' : 0 < lw := hw
      show (2 ≤ pc → tC = true) ∧ (3 ≤ pc → lw - 1 = 0) ∧ (rC = true → 4 ≤ pc)
      exact ⟨j1, fun h => by have := j2 h; omega, j3⟩

theorem sysInv_reachable {w : ℕ} {s : SysState} (h : Reachable w s) :
    SysInv s := by
  induction h with
  | refl => exact sysInv_init w
  | tail _ hstep ih => exact sysInv_step ih hstep

/-- Claim C6: the deferred calls run in the order close the tick channel,
wait for every worker to exit, close the result channel (the LIFO reversal of
their registration); consequently, in every reachable state of a run in which
the result channel is closed, the tick channel is already closed and no worker
goroutine is live — the Result stream never closes while a worker could still
produce a Result. -/
theorem c6_shutdown_order (w : ℕ) (s : SysState) (h : Reachable w s)
    (hr : s.resultsClosed = true) :
    shutdownOrder =
      [DeferAction.closeTicks, DeferAction.waitWorkers, DeferAction.closeResults] ∧
    s.ticksClosed = true ∧ s.liveWorkers = 0 := by
  obtain ⟨i1, i2, i3⟩ := sysInv_reachable h
  have h4 := i3 hr
  exact ⟨rfl, i1 (by omega), i2 (by omega)⟩

theorem c6_witness :
    shutdownOrder =
      [DeferAction.closeTicks, DeferAction.waitWorkers, DeferAction.closeResults] ∧
    (⟨4, true, true, 0⟩ : SysState).ticksClosed = true ∧
    (⟨4, true, true, 0⟩ : SysState).liveWorkers = 0 := by
  have h1 : SysStep (initSys 1) ⟨1, false, false, 1⟩ :=
    SysStep.exitLoop (initSys 1) rfl
  have h2 : SysStep (⟨1, false, false, 1⟩ : SysState) ⟨2, true, false, 1⟩ :=
    SysStep.runDefer ⟨1, false, false, 1⟩ 0 (by decide) rfl trivial
  have h3 : SysStep (⟨2, true, false, 1⟩ : SysState) ⟨2, true, false, 0⟩ :=
    SysStep.workerExit ⟨2, true, false, 1⟩ rfl (by decide)
  have h4 : SysStep (⟨2, true, false, 0⟩ : SysState) ⟨3, true, false, 0⟩ :=
    SysStep.runDefer ⟨2, true, false, 0⟩ 1 (by decide) rfl rfl
  have h5 : SysStep (⟨3, true, false, 0⟩ : SysState) ⟨4, true, true, 0⟩ :=
    SysStep.runDefer ⟨3, true, false, 0⟩ 2 (by decide) rfl trivial
  have hreach : Reachable 1 ⟨4, true, true, 0⟩ :=
    (((((Relation.ReflTransGen.refl).tail h1).tail h2).tail h3).tail h4).tail h5
  exact c6_shutdown_order 1 ⟨4, true, true, 0⟩ hreach rfl

end Trunks
